import Mathlib

/-!
Verification of the streaming TTS session client
(`src/pipecat/services/elevenlabs.py` and `src/pipecat/services/lmnt.py`).

The pure word-time aligner `calculate_word_times` is embedded directly; the
session controller (`run_tts`, `push_frame`, `_connect`, `_disconnect`,
`_receive_task_handler`) is embedded as an explicit state machine whose steps
return the updated state together with the list of events emitted downstream.
Python floats are modelled by `ℚ`; JSON character lists by `List Char`.
-/

namespace Pipecat

/-- The space character, the word separator of the wire protocol. -/
def spaceChar : Char := ' '

/-- Default character used for out-of-range `List.getD` lookups (never
actually selected: all lookups are in range). -/
def padChar : Char := 'A'

/-- Semantics of Python's `"".join(chars).split(" ")` on a list of
single characters: split on every space, keeping empty fragments
(`"".split(" ") == [""]`, `" ".split(" ") == ["", ""]`). -/
def pySplit : List Char → List (List Char)
  | [] => [[]]
  | c :: rest =>
    if c = spaceChar then [] :: pySplit rest
    else
      match pySplit rest with
      | [] => [[c]]
      | w :: ws => (c :: w) :: ws

/-- Python list indexing `xs[i - 1]` for `0 ≤ i < n`: at `i = 0` the index
`-1` selects the LAST element (negative indexing); otherwise `i - 1`. -/
def pyPrevIdx (i n : Nat) : Nat :=
  if i = 0 then n - 1 else i - 1

/-- The `for i, (a, b) in enumerate(zipped_times)` loop body of
`calculate_word_times` (src/pipecat/services/elevenlabs.py): walk the
enumerated pairs carrying the running index `i`; whenever the character is a
space or `i` is the final index, append
`cumulative_time + zipped_times[i - 1][1] / 1000.0`. -/
def wordTimesLoop (zipped : List (Char × ℚ)) (cum : ℚ) :
    Nat → List (Char × ℚ) → List ℚ
  | _, [] => []
  | i, (a, _) :: rest =>
    if a = spaceChar ∨ i = zipped.length - 1 then
      (cum + (zipped.getD (pyPrevIdx i zipped.length) (padChar, 0)).2 / 1000) ::
        wordTimesLoop zipped cum (i + 1) rest
    else wordTimesLoop zipped cum (i + 1) rest

/-- Embedding of `calculate_word_times(alignment_info, cumulative_time)` from
src/pipecat/services/elevenlabs.py.  `chars` and `charStartTimesMs` are the
two fields of `alignment_info`; `zip` truncates to the shorter list exactly as
Python's `zip` does, and the final `list(zip(words, times))` also truncates. -/
def calculate_word_times (chars : List Char) (charStartTimesMs : List ℚ)
    (cumulative_time : ℚ) : List (List Char × ℚ) :=
  let zipped_times := chars.zip charStartTimesMs
  let words := pySplit chars
  let times := wordTimesLoop zipped_times cumulative_time 0 zipped_times
  words.zip times

/-- Declarative description of the boundary indices used by the spec's
reading of the aligner: an index is a boundary iff its character is a space
or it is the final index of the batch. -/
def boundary_indices (chars : List Char) : List Nat :=
  (List.range chars.length).filter
    (fun i => decide (chars.getD i padChar = spaceChar ∨ i = chars.length - 1))

/-- Declarative word-time list: each boundary index `i` is mapped to
`offset + charStartTimesMs[i - 1] / 1000`, with `[i - 1]` read as Python
indexing (wrapping to the last element at `i = 0`). -/
def spec_times (chars : List Char) (charStartTimesMs : List ℚ) (off : ℚ) :
    List ℚ :=
  (boundary_indices chars).map
    (fun i => off + charStartTimesMs.getD (pyPrevIdx i chars.length) 0 / 1000)

/-- Declarative form of the aligner, written from the spec's words: the
space-split word list zipped with the boundary times, in order. -/
def spec_word_times (chars : List Char) (charStartTimesMs : List ℚ)
    (off : ℚ) : List (List Char × ℚ) :=
  (pySplit chars).zip (spec_times chars charStartTimesMs off)

end Pipecat

namespace Pipecat

/-- C2: the claim asserts the aligner returns `[("hi", 0.1), ("you", 0.5)]` on
chars `"h","i"," ","y","o","u"` with start times `0,100,200,300,400,500` and
offset 0.  It does not: the final boundary (index 5) is assigned the
PREVIOUS character's time, `400 / 1000 = 0.4`, so the result is
`[("hi", 0.1), ("you", 0.4)]`, which differs from the claimed value. -/
theorem C2_counterexample :
    calculate_word_times "hi you".toList [0, 100, 200, 300, 400, 500] 0 ≠
      [("hi".toList, 1/10), ("you".toList, 1/2)] := by
  norm_num +decide [calculate_word_times, wordTimesLoop, pySplit, pyPrevIdx,
    spaceChar, padChar]

/-- C2 (amended): on chars `"h","i"," ","y","o","u"` with start times
`0,100,200,300,400,500` and offset 0 the aligner returns exactly
`[("hi", 0.1), ("you", 0.4)]` — the final boundary gets the time of the
character immediately preceding it, `400 ms`. -/
theorem C2_amended :
    calculate_word_times "hi you".toList [0, 100, 200, 300, 400, 500] 0 =
      [("hi".toList, 1/10), ("you".toList, 2/5)] := by
  norm_num +decide [calculate_word_times, wordTimesLoop, pySplit, pyPrevIdx,
    spaceChar, padChar]

lemma pySplit_ne_nil (l : List Char) : pySplit l ≠ [] := by
  cases l with
  | nil => simp [pySplit]
  | cons c rest =>
    by_cases h : c = spaceChar
    · simp [pySplit, h]
    · simp only [pySplit, if_neg h]
      cases pySplit rest <;> simp

lemma length_pySplit (l : List Char) :
    (pySplit l).length = l.count spaceChar + 1 := by
  induction l with
  | nil => simp [pySplit]
  | cons c rest ih =>
    by_cases h : c = spaceChar
    · simp [pySplit, h, List.count_cons, ih]
    · simp only [pySplit, if_neg h]
      cases hp : pySplit rest with
      | nil => exact absurd hp (pySplit_ne_nil rest)
      | cons w ws =>
        have := ih
        rw [hp] at this
        simp only [List.length_cons] at this ⊢
        rw [List.count_cons]
        simp [h, this]

lemma zip_getD {α β : Type} (l1 : List α) (l2 : List β) (i : Nat) (a : α) (b : β)
    (h1 : i < l1.length) (h2 : i < l2.length) :
    (l1.zip l2).getD i (a, b) = (l1.getD i a, l2.getD i b) := by
  induction l1 generalizing l2 i with
  | nil => simp at h1
  | cons x xs ih =>
    cases l2 with
    | nil => simp at h2
    | cons y ys =>
      cases i with
      | zero => simp [List.zip_cons_cons]
      | succ n =>
        simp only [List.zip_cons_cons, List.getD_cons_succ]
        exact ih ys n (by simpa using h1) (by simpa using h2)

lemma pyPrevIdx_lt {i n : Nat} (h : i < n) : pyPrevIdx i n < n := by
  unfold pyPrevIdx; split <;> omega

lemma wordTimesLoop_eq_filter (z : List (Char × ℚ)) (cum : ℚ)
    (rest : List (Char × ℚ)) :
    ∀ k : Nat,
      (∀ j, j < rest.length → rest.getD j (padChar, 0) = z.getD (k + j) (padChar, 0)) →
      wordTimesLoop z cum k rest =
        ((List.range' k rest.length).filter
            (fun i => decide ((z.getD i (padChar, 0)).1 = spaceChar ∨ i = z.length - 1))).map
          (fun i => cum + (z.getD (pyPrevIdx i z.length) (padChar, 0)).2 / 1000) := by
  induction rest with
  | nil => intro k _; simp [wordTimesLoop]
  | cons p tl ih =>
    intro k h
    obtain ⟨a, b⟩ := p
    have h0 : z.getD k (padChar, 0) = (a, b) := by
      have := h 0 (by simp)
      simpa using this.symm
    have hshift : ∀ j, j < tl.length →
        tl.getD j (padChar, 0) = z.getD (k + 1 + j) (padChar, 0) := by
      intro j hj
      have := h (j + 1) (by simpa using Nat.succ_lt_succ hj)
      simpa [Nat.add_assoc, Nat.add_comm 1 j] using this
    simp only [List.length_cons, List.range'_succ, List.filter_cons, h0,
      decide_eq_true_eq]
    by_cases hc : a = spaceChar ∨ k = z.length - 1
    · rw [if_pos hc, List.map_cons]
      simp only [wordTimesLoop]
      rw [if_pos hc]
      exact congrArg _ (ih (k + 1) hshift)
    · rw [if_neg hc]
      simp only [wordTimesLoop]
      rw [if_neg hc]
      exact ih (k + 1) hshift

lemma wordTimesLoop_eq (z : List (Char × ℚ)) (cum : ℚ) :
    wordTimesLoop z cum 0 z =
      ((List.range z.length).filter
          (fun i => decide ((z.getD i (padChar, 0)).1 = spaceChar ∨ i = z.length - 1))).map
        (fun i => cum + (z.getD (pyPrevIdx i z.length) (padChar, 0)).2 / 1000) := by
  rw [List.range_eq_range']
  exact wordTimesLoop_eq_filter z cum z 0 (fun j _ => by simp)

lemma zip_length_eq {α β : Type} {l1 : List α} {l2 : List β}
    (h : l1.length = l2.length) : (l1.zip l2).length = l1.length := by
  simp [List.length_zip, h]

/-- The loop of `calculate_word_times` agrees with the declarative reading of
the spec whenever the two input lists have equal length. -/
lemma cwt_eq_spec (chars : List Char) (t : List ℚ) (off : ℚ)
    (hlen : chars.length = t.length) :
    calculate_word_times chars t off = spec_word_times chars t off := by
  have hz : (chars.zip t).length = chars.length := zip_length_eq hlen
  show (pySplit chars).zip (wordTimesLoop (chars.zip t) off 0 (chars.zip t)) =
    (pySplit chars).zip (spec_times chars t off)
  congr 1
  rw [wordTimesLoop_eq]
  simp only [hz]
  have hfilter :
      (List.range chars.length).filter
          (fun i => decide (((chars.zip t).getD i (padChar, 0)).1 = spaceChar ∨
            i = chars.length - 1)) =
        boundary_indices chars := by
    unfold boundary_indices
    apply List.filter_congr
    intro i hi
    have hi' : i < chars.length := List.mem_range.mp hi
    rw [zip_getD chars t i padChar 0 hi' (hlen ▸ hi')]
  rw [hfilter]
  unfold spec_times
  apply List.map_congr_left
  intro i hi
  have hi' : i < chars.length :=
    List.mem_range.mp (List.mem_filter.mp hi).1
  have hp : pyPrevIdx i chars.length < chars.length := pyPrevIdx_lt hi'
  rw [zip_getD chars t (pyPrevIdx i chars.length) padChar 0 hp (hlen ▸ hp)]

end Pipecat

namespace Pipecat

/-- C3: for every alignment batch whose character list and start-time list
have equal length, the aligner detects a boundary at exactly the indices whose
character is a space or which are the final index (`boundary_indices`),
assigns each boundary the time `offset + charStartTimesMs[i - 1] / 1000` (the
time of the character immediately preceding the boundary, with `[i - 1]` read
with Python's indexing: at `i = 0` it selects the final element, cf. C10), and
returns the space-split word list zipped with these times, in order — this is
the definition `spec_word_times`, written from the spec's words. -/
theorem C3_boundary_rule (chars : List Char) (t : List ℚ) (off : ℚ)
    (hlen : chars.length = t.length) :
    calculate_word_times chars t off = spec_word_times chars t off :=
  cwt_eq_spec chars t off hlen

/-- Witness for C3 at a concrete batch. -/
theorem C3_boundary_rule_witness :
    calculate_word_times "hi you".toList [0, 100, 200, 300, 400, 500] 0 =
      spec_word_times "hi you".toList [0, 100, 200, 300, 400, 500] 0 :=
  C3_boundary_rule "hi you".toList [0, 100, 200, 300, 400, 500] 0 (by decide)

end Pipecat

namespace Pipecat

/-- C10: for every non-empty alignment batch (equal-length lists) whose first
character is a space, the boundary at index 0 looks up `zipped_times[-1]` —
Python negative indexing — so the first returned word time equals
`offset + (start time of the LAST character) / 1000`; consequently the first
returned time can exceed later times of the same batch, as the concrete batch
`[" ", "a"]` with times `[0, 100]` shows: it returns `[("", 0.1), ("a", 0)]`. -/
theorem C10_leading_space_wraps (chars : List Char) (t : List ℚ) (off : ℚ)
    (hne : chars ≠ []) (hlen : chars.length = t.length)
    (hsp : chars.getD 0 padChar = spaceChar) :
    ((calculate_word_times chars t off).head?.map Prod.snd) =
      some (off + t.getD (t.length - 1) 0 / 1000) ∧
    (calculate_word_times [spaceChar, 'a'] [0, 100] 0 =
        [([], 1/10), (['a'], 0)] ∧ ((0 : ℚ) + 0 / 1000 < 0 + 100 / 1000)) := by
  refine ⟨?_, ?_, ?_⟩
  · rw [cwt_eq_spec chars t off hlen]
    cases chars with
    | nil => exact absurd rfl hne
    | cons c rest =>
      have hc : c = spaceChar := by simpa using hsp
      subst hc
      have hn : (spaceChar :: rest).length = rest.length + 1 := by simp
      unfold spec_word_times spec_times boundary_indices
      rw [hn, List.range_succ_eq_map, List.filter_cons]
      have hcond : (spaceChar :: rest).getD 0 padChar = spaceChar ∨
          (0 : ℕ) = (spaceChar :: rest).length - 1 := Or.inl (by simp)
      simp only [decide_eq_true_eq, hn] at hcond ⊢
      rw [if_pos hcond, List.map_cons]
      have hsplit : pySplit (spaceChar :: rest) = [] :: pySplit rest := by
        simp [pySplit]
      rw [hsplit, List.zip_cons_cons]
      simp only [List.head?_cons, Option.map_some']
      have : pyPrevIdx 0 (rest.length + 1) = rest.length := by
        simp [pyPrevIdx]
      rw [this]
      have hlen' : t.length = rest.length + 1 := by
        rw [← hlen]; simp
      rw [hlen']
      simp
  · norm_num +decide [calculate_word_times, wordTimesLoop, pySplit, pyPrevIdx,
      spaceChar, padChar]
  · norm_num

/-- Witness for C10 at the concrete leading-space batch. -/
theorem C10_leading_space_wraps_witness :
    ((calculate_word_times [spaceChar, 'a'] [0, 100] 0).head?.map Prod.snd) =
      some (0 + ([(0 : ℚ), 100]).getD (([(0 : ℚ), 100]).length - 1) 0 / 1000) ∧
    (calculate_word_times [spaceChar, 'a'] [0, 100] 0 =
        [([], 1/10), (['a'], 0)] ∧ ((0 : ℚ) + 0 / 1000 < 0 + 100 / 1000)) :=
  C10_leading_space_wraps [spaceChar, 'a'] [0, 100] 0 (by decide) (by decide)
    (by decide)

end Pipecat

namespace Pipecat

/-- Frames pushed through `push_frame` (the subset relevant to the session
controller). -/
inductive Frame where
  | ttsStarted : Frame
  | ttsStopped : Frame
  | startInterruption : Frame
  | audioRaw (payload : Nat) : Frame
  deriving DecidableEq

/-- Observable events: frames forwarded downstream by `super().push_frame`,
word timestamps handed to `add_word_timestamps`, and outbound text sends. -/
inductive Ev where
  | evStarted : Ev
  | evStopped : Ev
  | evInterruption : Ev
  | evAudio (payload : Nat) : Ev
  | evWord (wts : List (List Char × ℚ)) : Ev
  | evSent (text : String) : Ev
  deriving DecidableEq

/-- The downstream event corresponding to a pushed frame. -/
def frameEv : Frame → Ev
  | .ttsStarted => .evStarted
  | .ttsStopped => .evStopped
  | .startInterruption => .evInterruption
  | .audioRaw p => .evAudio p

/-- The word used by the synthetic end-of-response marker. -/
def markerWord : List Char := "LLMFullResponseEndFrame".toList

/-- State of `ElevenLabsTTSService`: whether `_websocket` is non-None, whether
the `_receive_task` loop is alive, the `_started` flag, and
`_cumulative_time`. -/
structure SvcState where
  websocket : Bool
  receiveTask : Bool
  started : Bool
  cumulative : ℚ
  deriving DecidableEq

/-- The freshly constructed service: no connection, no tasks, `_started`
false, `_cumulative_time = 0`. -/
def initState : SvcState := ⟨false, false, false, 0⟩

/-- Embedding of `ElevenLabsTTSService.push_frame`: forward the frame
downstream (`super().push_frame`); on TTSStoppedFrame or
StartInterruptionFrame clear `_started`; on TTSStoppedFrame additionally emit
`add_word_timestamps([("LLMFullResponseEndFrame", 0)])`. -/
def push_frame (s : SvcState) (f : Frame) : SvcState × List Ev :=
  match f with
  | .ttsStopped =>
    ({ s with started := false }, [Ev.evStopped, Ev.evWord [(markerWord, 0)]])
  | .startInterruption => ({ s with started := false }, [Ev.evInterruption])
  | f => (s, [frameEv f])

/-- Embedding of `_connect`: on success the websocket handle is set and the
receive (and keepalive) tasks are spawned; on failure the handle is cleared.
The handshake control message is connection setup, not a downstream event. -/
def connectStep (s : SvcState) (ok : Bool) : SvcState :=
  if ok then { s with websocket := true, receiveTask := true }
  else { s with websocket := false }

/-- Embedding of `_disconnect`, whose whole body runs inside a single
`try/except Exception`.  `ok = true` is the exception-free run: close intent
is sent, the websocket is closed and cleared, the receive and keepalive tasks
are cancelled and awaited, and `_started` is cleared.  `ok = false` models an
exception escaping partway — from `stop_all_metrics()`, the close-intent
`send` (the normal case on a socket the server has already closed) or
`close()`, all of which precede every field mutation of the body — so the
swallowed exception leaves the websocket handle set, the receive task alive
(never cancelled or awaited) and `_started` unchanged. -/
def disconnectStep (s : SvcState) (ok : Bool) : SvcState :=
  if ok then { s with websocket := false, receiveTask := false, started := false }
  else s

/-- Inbound protocol messages of the receive loop. -/
inductive Msg where
  | audio (payload : Nat) : Msg
  | alignment (chars : List Char) (charStartTimesMs : List ℚ) : Msg
  deriving DecidableEq

/-- Embedding of one iteration of `_receive_task_handler`: a message delivered
to the receive loop (a no-op when the loop is not alive).  An audio message is
pushed unconditionally; an alignment message is passed to the aligner with the
current cumulative time, its result emitted via `add_word_timestamps`, and
`_cumulative_time` advances to `word_times[-1][1]` — when `word_times` is
empty that indexing raises IndexError, which the surrounding `except` clause
catches, silently terminating the loop. -/
def deliverStep (s : SvcState) (m : Msg) : SvcState × List Ev :=
  if s.receiveTask then
    match m with
    | .audio p => push_frame s (.audioRaw p)
    | .alignment c t =>
      let wt := calculate_word_times c t s.cumulative
      match wt.getLast? with
      | some last => ({ s with cumulative := last.2 }, [Ev.evWord wt])
      | none => ({ s with receiveTask := false }, [Ev.evWord wt])
  else (s, [])

/-- Embedding of `run_tts`: connect when there is no websocket; when
`_started` is false push TTSStartedFrame, set `_started` and reset
`_cumulative_time` to 0; then `_send_text` (a silent no-op when there is no
websocket, sending `text + " "` otherwise).  A send failure pushes
TTSStoppedFrame, disconnects, reconnects, and aborts the call without
re-sending the text. -/
def runTTSStep (s : SvcState) (text : String)
    (connectOk sendOk reconnectOk : Bool) : SvcState × List Ev :=
  let s1 := if s.websocket then s else connectStep s connectOk
  let q2 :=
    if s1.started then (s1, ([] : List Ev))
    else
      let q := push_frame s1 .ttsStarted
      ({ q.1 with started := true, cumulative := 0 }, q.2)
  let s2 := q2.1
  let e2 := q2.2
  if s2.websocket then
    if sendOk then (s2, e2 ++ [Ev.evSent (text ++ " ")])
    else
      let q3 := push_frame s2 .ttsStopped
      -- The mid-call `_disconnect` is modelled on its exception-free path:
      -- were it to raise instead (leaving handle and tasks in place), the
      -- `_connect` that follows immediately reinstalls both on a successful
      -- reconnect, converging to the same state.
      (connectStep (disconnectStep q3.1 true) reconnectOk, e2 ++ q3.2)
  else (s2, e2)

/-- The inputs that can drive the session controller. -/
inductive Action where
  | connect (ok : Bool) : Action
  | runTTS (text : String) (connectOk sendOk reconnectOk : Bool) : Action
  | deliver (m : Msg) : Action
  | interrupt : Action
  | stoppedFrame : Action
  | stop (ok : Bool) : Action
  deriving DecidableEq

/-- One step of the session controller: `connect` is `start(StartFrame)`;
`runTTS` is `run_tts`; `deliver` hands an inbound message to the receive loop;
`interrupt` is a StartInterruptionFrame travelling through `push_frame`;
`stoppedFrame` is a TTSStoppedFrame travelling through `push_frame` (e.g. the
parent's idle-timeout stop); `stop ok` is `stop(EndFrame)`/`cancel(CancelFrame)`,
which tear down via `_disconnect`, `ok` saying whether the `_disconnect` body
ran to completion or raised partway (its `except` swallows the error). -/
def step (s : SvcState) : Action → SvcState × List Ev
  | .connect ok => (connectStep s ok, [])
  | .runTTS text cOk sOk rOk => runTTSStep s text cOk sOk rOk
  | .deliver m => deliverStep s m
  | .interrupt => push_frame s .startInterruption
  | .stoppedFrame => push_frame s .ttsStopped
  | .stop ok => (disconnectStep s ok, [])

/-- Run a list of actions from a state, accumulating all emitted events. -/
def exec (s : SvcState) : List Action → SvcState × List Ev
  | [] => (s, [])
  | a :: rest =>
    let q1 := step s a
    let q2 := exec q1.1 rest
    (q2.1, q1.2 ++ q2.2)

/-- Recognizer for word-timing events. -/
def isWordEv : Ev → Bool
  | .evWord _ => true
  | _ => false

/-- Recognizer for outbound text sends. -/
def isSentEv : Ev → Bool
  | .evSent _ => true
  | _ => false

end Pipecat

namespace Pipecat

lemma exec_append (s : SvcState) (l1 l2 : List Action) :
    exec s (l1 ++ l2) =
      ((exec (exec s l1).1 l2).1, (exec s l1).2 ++ (exec (exec s l1).1 l2).2) := by
  induction l1 generalizing s with
  | nil => simp [exec]
  | cons a tl ih =>
    simp only [List.cons_append, exec, List.append_eq]
    rw [ih (step s a).1]
    simp [List.append_assoc]

/-- C1 counterexample: the code does NOT guard emission on the `_started`
flag.  In the reachable state after connect → run_tts → interruption the flag
is false, the websocket is open and the receive loop is alive, and a stale
in-flight audio message delivered to the loop IS emitted downstream. -/
theorem C1_counterexample :
    (exec initState
        [Action.connect true, Action.runTTS "hi" true true true,
          Action.interrupt]).1.started = false ∧
    (exec initState
        [Action.connect true, Action.runTTS "hi" true true true,
          Action.interrupt]).1.receiveTask = true ∧
    (deliverStep
        (exec initState
          [Action.connect true, Action.runTTS "hi" true true true,
            Action.interrupt]).1 (Msg.audio 7)).2 = [Ev.evAudio 7] := by
  decide

/-- C1 (amended): teardown safety holds exactly on the exception-free
teardown path.  After a `stop()` whose `_disconnect` body ran to completion,
the receive loop has been cancelled and awaited, so a stale in-flight message
delivered afterwards emits nothing and changes nothing.  When `_disconnect`
raises partway (e.g. the close-intent send on a socket the server has already
closed), its `except` clause swallows the error before the receive task was
cancelled, so the task survives `stop()` and a stale delivered audio message
IS still emitted — and while a session is live, audio and word-timing events
are emitted for delivered messages regardless of the `_started` flag (see the
counterexample). -/
theorem C1_amended :
    (∀ (acts : List Action) (m : Msg),
      (exec initState (acts ++ [Action.stop true])).1.receiveTask = false ∧
      deliverStep (exec initState (acts ++ [Action.stop true])).1 m =
        ((exec initState (acts ++ [Action.stop true])).1, [])) ∧
    (∀ (s : SvcState) (p : Nat), s.receiveTask = true →
      (step s (Action.stop false)).1 = s ∧
      (deliverStep (step s (Action.stop false)).1 (Msg.audio p)).2 =
        [Ev.evAudio p]) := by
  constructor
  · intro acts m
    have hs : (exec initState (acts ++ [Action.stop true])).1 =
        disconnectStep (exec initState acts).1 true := by
      rw [exec_append initState acts [Action.stop true]]
      simp [exec, step]
    rw [hs]
    exact ⟨rfl, by simp [deliverStep, disconnectStep]⟩
  · intro s p htask
    refine ⟨rfl, ?_⟩
    simp [step, deliverStep, disconnectStep, htask, push_frame, frameEv]

/-- Witness for C1: a live state, torn down along the raising `_disconnect`
path, still emits a delivered stale audio message. -/
theorem C1_amended_witness :
    (step (⟨true, true, false, 0⟩ : SvcState) (Action.stop false)).1 =
      (⟨true, true, false, 0⟩ : SvcState) ∧
    (deliverStep (step (⟨true, true, false, 0⟩ : SvcState)
        (Action.stop false)).1 (Msg.audio 7)).2 = [Ev.evAudio 7] :=
  C1_amended.2 ⟨true, true, false, 0⟩ 7 rfl

/-- C8 counterexample: from the reachable Speaking state (connect → run_tts,
`_started = true`), an interruption signal clears the flag and forwards the
interruption downstream but emits NO synthetic end-of-response word-timing
marker — `push_frame` adds the `("LLMFullResponseEndFrame", 0)` marker only
for TTSStoppedFrame, not for StartInterruptionFrame. -/
theorem C8_counterexample :
    (exec initState [Action.connect true, Action.runTTS "hi" true true true]).1.started
        = true ∧
    (step (exec initState
        [Action.connect true, Action.runTTS "hi" true true true]).1
        Action.interrupt).2.filter isWordEv = [] ∧
    (step (exec initState
        [Action.connect true, Action.runTTS "hi" true true true]).1
        Action.interrupt).2 = [Ev.evInterruption] := by
  decide

/-- C8 (amended): a TTSStoppedFrame (external stop event) passing through
`push_frame` emits the synthetic zero-duration `("LLMFullResponseEndFrame", 0)`
marker and clears `_started` (Speaking or not); an interruption signal only
clears `_started` — no marker is emitted for it. -/
theorem C8_amended (s : SvcState) :
    step s Action.stoppedFrame =
      ({ s with started := false },
        [Ev.evStopped, Ev.evWord [(markerWord, 0)]]) ∧
    step s Action.interrupt =
      ({ s with started := false }, [Ev.evInterruption]) :=
  ⟨rfl, rfl⟩

/-- Embedding of `InputParams.validate_voice_settings`
(src/pipecat/services/elevenlabs.py): a pydantic `model_validator` that runs
when the configuration object is constructed — before any connection attempt —
and raises iff exactly one of `stability`, `similarity_boost` is provided. -/
def validate_voice_settings (stability similarity_boost : Option ℚ) :
    Except String Unit :=
  if stability.isNone != similarity_boost.isNone then
    Except.error
      "Both stability and similarity_boost must be provided when using voice settings"
  else Except.ok ()

/-- C9: configuration validation of the voice settings fails iff exactly one
of `stability` and `similarity_boost` is provided; providing both or neither
passes. -/
theorem C9_voice_settings_validation (stability similarity_boost : Option ℚ) :
    ((∃ e, validate_voice_settings stability similarity_boost = Except.error e) ↔
      stability.isSome ≠ similarity_boost.isSome) ∧
    (validate_voice_settings stability similarity_boost = Except.ok () ↔
      (stability.isSome ↔ similarity_boost.isSome)) := by
  cases stability <;> cases similarity_boost <;>
    simp [validate_voice_settings]

end Pipecat

namespace Pipecat

/-- State of `LmntTTSService`: `_connection`, `_receive_task`, `_started`. -/
structure LmntState where
  connection : Bool
  receiveTask : Bool
  started : Bool
  deriving DecidableEq

/-- Embedding of `LmntTTSService.push_frame`: clears `_started` on
TTSStoppedFrame or StartInterruptionFrame; no word-timestamp marker. -/
def lmntPushFrame (s : LmntState) (f : Frame) : LmntState × List Ev :=
  match f with
  | .ttsStopped => ({ s with started := false }, [Ev.evStopped])
  | .startInterruption => ({ s with started := false }, [Ev.evInterruption])
  | f => (s, [frameEv f])

/-- Embedding of `LmntTTSService._connect`. -/
def lmntConnect (s : LmntState) (ok : Bool) : LmntState :=
  if ok then { s with connection := true, receiveTask := true }
  else { s with connection := false }

/-- Embedding of `LmntTTSService._disconnect`, whose whole body runs inside a
single `try/except Exception`.  `ok = true` is the exception-free run.
`ok = false` models the exception escaping from `stop_all_metrics()`, the
first statement of the body, before any field has been mutated, so task
cancellation, the connection close and the `_started` reset are all skipped.
(An exception at a later point can leave other partial states, e.g. the task
already cancelled but the handle still set; no theorem below depends on the
failure branch, which exists to keep the `try/except` visible.) -/
def lmntDisconnect (s : LmntState) (ok : Bool) : LmntState :=
  if ok then { s with connection := false, receiveTask := false, started := false }
  else s

/-- Embedding of `LmntTTSService.run_tts`: connect if there is no connection;
push TTSStartedFrame if `_started` is false (this happens before the inner
try-block); then `append_text`/`flush`, which raises when the connection is
absent (`None.append_text`) or the transport fails; on failure push
TTSStoppedFrame, disconnect, reconnect and abort without re-sending. -/
def lmntRunTTS (s : LmntState) (text : String)
    (connectOk sendOk reconnectOk : Bool) : LmntState × List Ev :=
  let s1 := if s.connection then s else lmntConnect s connectOk
  let q2 :=
    if s1.started then (s1, ([] : List Ev))
    else
      let q := lmntPushFrame s1 .ttsStarted
      ({ q.1 with started := true }, q.2)
  let s2 := q2.1
  let e2 := q2.2
  if s2.connection && sendOk then (s2, e2 ++ [Ev.evSent text])
  else
    let q3 := lmntPushFrame s2 .ttsStopped
    -- As in `runTTSStep`, the mid-call `_disconnect` is modelled on its
    -- exception-free path; on a raise the following `_connect` reinstalls
    -- the connection and tasks, converging on a successful reconnect.
    (lmntConnect (lmntDisconnect q3.1 true) reconnectOk, e2 ++ q3.2)

/-- C6: in both services, a `run_tts` call whose text send fails with a
transport error emits exactly one stop-utterance event, sends no text, tears
the connection down and reconnects (leaving a live connection and receive
loop with `_started` false), and aborts; the next `run_tts` call then emits a
fresh start event and successfully sends its text. -/
theorem C6_send_failure_recovery (s : SvcState) (ls : LmntState)
    (text text2 ltext ltext2 : String)
    (hws : s.websocket = true) (hconn : ls.connection = true) :
    ((runTTSStep s text true false true).2.count Ev.evStopped = 1 ∧
      (runTTSStep s text true false true).2.filter isSentEv = [] ∧
      (runTTSStep s text true false true).1.websocket = true ∧
      (runTTSStep s text true false true).1.receiveTask = true ∧
      (runTTSStep s text true false true).1.started = false ∧
      Ev.evStarted ∈
        (runTTSStep (runTTSStep s text true false true).1 text2 true true true).2 ∧
      Ev.evSent (text2 ++ " ") ∈
        (runTTSStep (runTTSStep s text true false true).1 text2 true true true).2) ∧
    ((lmntRunTTS ls ltext true false true).2.count Ev.evStopped = 1 ∧
      (lmntRunTTS ls ltext true false true).2.filter isSentEv = [] ∧
      (lmntRunTTS ls ltext true false true).1.connection = true ∧
      (lmntRunTTS ls ltext true false true).1.receiveTask = true ∧
      (lmntRunTTS ls ltext true false true).1.started = false ∧
      Ev.evStarted ∈
        (lmntRunTTS (lmntRunTTS ls ltext true false true).1 ltext2 true true true).2 ∧
      Ev.evSent ltext2 ∈
        (lmntRunTTS (lmntRunTTS ls ltext true false true).1 ltext2 true true true).2) := by
  obtain ⟨ws, task, st, cum⟩ := s
  obtain ⟨lconn, ltask, lst⟩ := ls
  simp only at hws hconn
  subst hws hconn
  cases st <;> cases lst <;>
    simp [runTTSStep, lmntRunTTS, push_frame, lmntPushFrame, connectStep,
      lmntConnect, disconnectStep, lmntDisconnect, frameEv, isSentEv,
      List.count_cons]

/-- Witness for C6 from fresh connected states. -/
theorem C6_send_failure_recovery_witness :
    ((runTTSStep ⟨true, true, false, 0⟩ "a" true false true).2.count Ev.evStopped = 1 ∧
      (runTTSStep ⟨true, true, false, 0⟩ "a" true false true).2.filter isSentEv = [] ∧
      (runTTSStep ⟨true, true, false, 0⟩ "a" true false true).1.websocket = true ∧
      (runTTSStep ⟨true, true, false, 0⟩ "a" true false true).1.receiveTask = true ∧
      (runTTSStep ⟨true, true, false, 0⟩ "a" true false true).1.started = false ∧
      Ev.evStarted ∈
        (runTTSStep (runTTSStep ⟨true, true, false, 0⟩ "a" true false true).1
          "b" true true true).2 ∧
      Ev.evSent ("b" ++ " ") ∈
        (runTTSStep (runTTSStep ⟨true, true, false, 0⟩ "a" true false true).1
          "b" true true true).2) ∧
    ((lmntRunTTS ⟨true, true, false⟩ "c" true false true).2.count Ev.evStopped = 1 ∧
      (lmntRunTTS ⟨true, true, false⟩ "c" true false true).2.filter isSentEv = [] ∧
      (lmntRunTTS ⟨true, true, false⟩ "c" true false true).1.connection = true ∧
      (lmntRunTTS ⟨true, true, false⟩ "c" true false true).1.receiveTask = true ∧
      (lmntRunTTS ⟨true, true, false⟩ "c" true false true).1.started = false ∧
      Ev.evStarted ∈
        (lmntRunTTS (lmntRunTTS ⟨true, true, false⟩ "c" true false true).1
          "d" true true true).2 ∧
      Ev.evSent "d" ∈
        (lmntRunTTS (lmntRunTTS ⟨true, true, false⟩ "c" true false true).1
          "d" true true true).2) :=
  C6_send_failure_recovery ⟨true, true, false, 0⟩ ⟨true, true, false⟩
    "a" "b" "c" "d" rfl rfl

end Pipecat

namespace Pipecat

lemma last_mem_boundary_indices {c : List Char} (hne : c ≠ []) :
    c.length - 1 ∈ boundary_indices c := by
  have hpos : 0 < c.length := List.length_pos.mpr hne
  unfold boundary_indices
  rw [List.mem_filter]
  exact ⟨List.mem_range.mpr (by omega), by simp⟩

lemma spec_times_ne_nil {c : List Char} {t : List ℚ} {off : ℚ}
    (hne : c ≠ []) : spec_times c t off ≠ [] := by
  unfold spec_times
  intro h0
  have := last_mem_boundary_indices (c := c) hne
  rw [List.map_eq_nil_iff] at h0
  rw [h0] at this
  simp at this

lemma cwt_ne_nil {c : List Char} {t : List ℚ} {off : ℚ}
    (hne : c ≠ []) (hlen : c.length = t.length) :
    calculate_word_times c t off ≠ [] := by
  rw [cwt_eq_spec c t off hlen]
  unfold spec_word_times
  obtain ⟨w, ws, hw⟩ := List.exists_cons_of_ne_nil (pySplit_ne_nil c)
  obtain ⟨x, xs, hx⟩ := List.exists_cons_of_ne_nil (@spec_times_ne_nil c t off hne)
  rw [hw, hx, List.zip_cons_cons]
  simp

/-- C4 counterexample: for the batch chars `"h","i"," "` with times
`[0,100,200]` the number of detected boundaries (1: index 2 is both a space
and the final index, counted once) differs from the number of words from the
split (2: `["hi", ""]`), yet a live receive loop does NOT drop the batch: it
emits the truncated zip `[("hi", 0.1)]` as a word-timing event. -/
theorem C4_counterexample :
    (boundary_indices ['h', 'i', spaceChar]).length ≠
      (pySplit ['h', 'i', spaceChar]).length ∧
    (deliverStep ⟨true, true, true, 0⟩
        (Msg.alignment ['h', 'i', spaceChar] [0, 100, 200])).2 =
      [Ev.evWord [(['h', 'i'], 1/10)]] ∧
    [Ev.evWord [(['h', 'i'], (1 : ℚ)/10)]] ≠ ([] : List Ev) := by
  refine ⟨by decide, ?_, by simp⟩
  norm_num +decide [deliverStep, calculate_word_times, wordTimesLoop, pySplit,
    pyPrevIdx, spaceChar, padChar]

/-- C4 (amended): a mismatch between the boundary count and the word count is
NOT detected: for every alignment batch — including mismatched ones — a live
receive loop emits the word timings computed by the aligner, which are the
truncated zip of the split words with the boundary times; for a non-empty
batch the emitted list is non-empty and the loop continues. -/
theorem C4_amended (c : List Char) (t : List ℚ) (s : SvcState)
    (htask : s.receiveTask = true)
    (hlen : c.length = t.length)
    (hne : c ≠ [])
    (_hmm : (boundary_indices c).length ≠ (pySplit c).length) :
    (deliverStep s (Msg.alignment c t)).2 =
      [Ev.evWord (calculate_word_times c t s.cumulative)] ∧
    calculate_word_times c t s.cumulative =
      (pySplit c).zip (spec_times c t s.cumulative) ∧
    calculate_word_times c t s.cumulative ≠ [] ∧
    (deliverStep s (Msg.alignment c t)).1.receiveTask = true := by
  have hzne := @cwt_ne_nil c t s.cumulative hne hlen
  obtain ⟨last, hlast⟩ :=
    Option.isSome_iff_exists.mp (List.getLast?_isSome.mpr hzne)
  refine ⟨?_, cwt_eq_spec c t s.cumulative hlen, hzne, ?_⟩
  · simp only [deliverStep, htask, if_true, hlast]
  · simp only [deliverStep, htask, if_true, hlast]

/-- Witness for C4 at the mismatched batch `"hi "` / `[0,100,200]`. -/
theorem C4_amended_witness :
    (deliverStep ⟨true, true, true, 0⟩
        (Msg.alignment ['h', 'i', spaceChar] [0, 100, 200])).2 =
      [Ev.evWord
        (calculate_word_times ['h', 'i', spaceChar] [0, 100, 200]
          (SvcState.mk true true true 0).cumulative)] ∧
    calculate_word_times ['h', 'i', spaceChar] [0, 100, 200]
        (SvcState.mk true true true 0).cumulative =
      (pySplit ['h', 'i', spaceChar]).zip
        (spec_times ['h', 'i', spaceChar] [0, 100, 200]
          (SvcState.mk true true true 0).cumulative) ∧
    calculate_word_times ['h', 'i', spaceChar] [0, 100, 200]
        (SvcState.mk true true true 0).cumulative ≠ [] ∧
    (deliverStep ⟨true, true, true, 0⟩
        (Msg.alignment ['h', 'i', spaceChar] [0, 100, 200])).1.receiveTask = true :=
  C4_amended ['h', 'i', spaceChar] [0, 100, 200] ⟨true, true, true, 0⟩
    rfl (by decide) (by decide) (by decide)

end Pipecat

namespace Pipecat

lemma mem_boundary_indices {c : List Char} {i : Nat} :
    i ∈ boundary_indices c ↔
      i < c.length ∧ (c.getD i padChar = spaceChar ∨ i = c.length - 1) := by
  unfold boundary_indices
  rw [List.mem_filter, List.mem_range, decide_eq_true_eq]

lemma boundary_indices_sorted (c : List Char) :
    (boundary_indices c).Pairwise (· < ·) :=
  (List.pairwise_lt_range c.length).filter _

lemma boundary1_le {c : List Char} (hh : c.getD 0 padChar ≠ spaceChar)
    {i j : Nat} (hi : i ∈ boundary_indices c) (hj : j ∈ boundary_indices c)
    (hij : i < j) : 1 ≤ i := by
  rcases Nat.eq_zero_or_pos i with h0 | h1
  · subst h0
    obtain ⟨_, hcond⟩ := mem_boundary_indices.mp hi
    rcases hcond with hsp | hlast
    · exact absurd hsp hh
    · obtain ⟨hltj, _⟩ := mem_boundary_indices.mp hj
      omega
  · exact h1

lemma sorted_getD_lt {t : List ℚ} (hs : t.Pairwise (· < ·))
    {i j : Nat} (hij : i < j) (hj : j < t.length) :
    t.getD i 0 < t.getD j 0 := by
  have hi : i < t.length := lt_trans hij hj
  rw [List.getD_eq_getElem t 0 hi, List.getD_eq_getElem t 0 hj]
  exact List.pairwise_iff_get.mp hs ⟨i, hi⟩ ⟨j, hj⟩ hij

lemma sorted_getD_le {t : List ℚ} (hs : t.Pairwise (· < ·))
    {i j : Nat} (hij : i ≤ j) (hj : j < t.length) :
    t.getD i 0 ≤ t.getD j 0 := by
  rcases Nat.lt_or_ge i j with h | h
  · exact le_of_lt (sorted_getD_lt hs h hj)
  · rw [le_antisymm hij h]

lemma spec_times_sorted {c : List Char} {t : List ℚ} {off : ℚ}
    (hlen : c.length = t.length) (hh : c.getD 0 padChar ≠ spaceChar)
    (hs : t.Pairwise (· < ·)) :
    (spec_times c t off).Pairwise (· < ·) := by
  unfold spec_times
  rw [List.pairwise_map]
  refine (boundary_indices_sorted c).imp_of_mem ?_
  intro i j hi hj hij
  have h1 : 1 ≤ i := boundary1_le hh hi hj hij
  obtain ⟨hiL, _⟩ := mem_boundary_indices.mp hi
  obtain ⟨hjL, _⟩ := mem_boundary_indices.mp hj
  have hpi : pyPrevIdx i c.length = i - 1 := by
    rw [pyPrevIdx, if_neg (by omega)]
  have hpj : pyPrevIdx j c.length = j - 1 := by
    rw [pyPrevIdx, if_neg (by omega)]
  rw [hpi, hpj]
  have hd : t.getD (i - 1) 0 < t.getD (j - 1) 0 :=
    sorted_getD_lt hs (by omega) (by omega)
  have h1000 : (0 : ℚ) < 1000 := by norm_num
  exact add_lt_add_left ((div_lt_div_iff_of_pos_right h1000).mpr hd) off

lemma spec_times_gt_off {c : List Char} {t : List ℚ} {off x : ℚ}
    (hlen : c.length = t.length) (hpos : ∀ y ∈ t, 0 < y)
    (hx : x ∈ spec_times c t off) : off < x := by
  unfold spec_times at hx
  obtain ⟨i, hi, rfl⟩ := List.mem_map.mp hx
  obtain ⟨hiL, _⟩ := mem_boundary_indices.mp hi
  have hp : pyPrevIdx i c.length < t.length := hlen ▸ pyPrevIdx_lt hiL
  have hmem : t.getD (pyPrevIdx i c.length) 0 ∈ t := by
    rw [List.getD_eq_getElem t 0 hp]
    exact List.getElem_mem hp
  have hy := hpos _ hmem
  have : (0 : ℚ) < t.getD (pyPrevIdx i c.length) 0 / 1000 :=
    div_pos hy (by norm_num)
  linarith

lemma sorted_getLast?_max {l : List Nat} (hs : l.Pairwise (· < ·)) {m : Nat}
    (hm : m ∈ l) (hmax : ∀ x ∈ l, x ≤ m) : l.getLast? = some m := by
  induction l with
  | nil => simp at hm
  | cons a tl ih =>
    cases tl with
    | nil =>
      simp at hm
      simp [hm]
    | cons b tl2 =>
      rw [List.getLast?_cons_cons]
      have ha : a < b := (List.pairwise_cons.mp hs).1 b (by simp)
      have hm' : m ∈ b :: tl2 := by
        rcases List.mem_cons.mp hm with rfl | h
        · exfalso
          have := hmax b (by simp)
          omega
        · exact h
      exact ih (List.pairwise_cons.mp hs).2 hm'
        (fun x hx => hmax x (List.mem_cons_of_mem a hx))

lemma boundary_indices_getLast? {c : List Char} (hne : c ≠ []) :
    (boundary_indices c).getLast? = some (c.length - 1) :=
  sorted_getLast?_max (boundary_indices_sorted c) (last_mem_boundary_indices hne)
    (fun x hx => by
      obtain ⟨hxL, _⟩ := mem_boundary_indices.mp hx
      omega)

lemma spec_times_getLast? {c : List Char} {t : List ℚ} {off : ℚ}
    (hne : c ≠ []) :
    (spec_times c t off).getLast? =
      some (off + t.getD (pyPrevIdx (c.length - 1) c.length) 0 / 1000) := by
  unfold spec_times
  rw [List.getLast?_map, boundary_indices_getLast? hne]
  rfl

lemma spec_times_le_last {c : List Char} {t : List ℚ} {off x : ℚ}
    (hlen : c.length = t.length)
    (hh : c.getD 0 padChar ≠ spaceChar) (hs : t.Pairwise (· < ·))
    (hx : x ∈ spec_times c t off) :
    x ≤ off + t.getD (pyPrevIdx (c.length - 1) c.length) 0 / 1000 := by
  unfold spec_times at hx
  obtain ⟨i, hi, rfl⟩ := List.mem_map.mp hx
  obtain ⟨hiL, hcond⟩ := mem_boundary_indices.mp hi
  have key : t.getD (pyPrevIdx i c.length) 0 ≤
      t.getD (pyPrevIdx (c.length - 1) c.length) 0 := by
    by_cases heq : i = c.length - 1
    · rw [heq]
    · have hlt : i < c.length - 1 := by omega
      have h1 : 1 ≤ i := by
        rcases hcond with hsp2 | hlast
        · rcases Nat.eq_zero_or_pos i with rfl | h
          · exact absurd hsp2 hh
          · exact h
        · omega
      have hpi : pyPrevIdx i c.length = i - 1 := by
        rw [pyPrevIdx, if_neg (by omega)]
      have hpn : pyPrevIdx (c.length - 1) c.length = c.length - 2 := by
        rw [pyPrevIdx, if_neg (by omega)]
        omega
      rw [hpi, hpn]
      exact sorted_getD_le hs (by omega) (by omega)
  have h1000 : (0 : ℚ) < 1000 := by norm_num
  exact add_le_add_left ((div_le_div_iff_of_pos_right h1000).mpr key) off

lemma length_filter_or_le {p q : Nat → Bool} (l : List Nat) :
    (l.filter (fun i => p i || q i)).length ≤
      (l.filter p).length + (l.filter q).length := by
  induction l with
  | nil => simp
  | cons a tl ih =>
    by_cases hp : p a <;> by_cases hq : q a <;>
      simp [List.filter_cons, hp, hq] <;> omega

lemma filter_getD_space_length (c : List Char) :
    ((List.range c.length).filter
        (fun i => decide (c.getD i padChar = spaceChar))).length =
      c.count spaceChar := by
  induction c with
  | nil => simp
  | cons ch tl ih =>
    rw [List.length_cons, List.range_succ_eq_map, List.filter_cons,
      List.filter_map]
    have hcomp :
        ((fun i => decide ((ch :: tl).getD i padChar = spaceChar)) ∘ Nat.succ) =
          (fun i => decide (tl.getD i padChar = spaceChar)) := by
      funext i
      simp [Function.comp, List.getD_cons_succ]
    rw [hcomp]
    by_cases h : ch = spaceChar
    · rw [if_pos (by simp [h]), List.length_cons, List.length_map, ih,
        List.count_cons]
      simp [h]
    · rw [if_neg (by simp [h]), List.length_map, ih, List.count_cons]
      simp [h]

lemma filter_eq_last_length (n : Nat) :
    ((List.range n).filter (fun i => decide (i = n - 1))).length ≤ 1 := by
  have hnd : ((List.range n).filter (fun i => decide (i = n - 1))).Nodup :=
    (List.nodup_range n).filter _
  match hl : (List.range n).filter (fun i => decide (i = n - 1)) with
  | [] => simp
  | [x] => simp
  | x :: y :: tl =>
    exfalso
    have hx : x = n - 1 := by
      have hmem : x ∈ (List.range n).filter (fun i => decide (i = n - 1)) := by
        rw [hl]; simp
      simpa using (List.mem_filter.mp hmem).2
    have hy : y = n - 1 := by
      have hmem : y ∈ (List.range n).filter (fun i => decide (i = n - 1)) := by
        rw [hl]; simp
      simpa using (List.mem_filter.mp hmem).2
    rw [hl, List.nodup_cons] at hnd
    exact hnd.1 (by rw [hx, ← hy]; simp)

lemma boundary_indices_length_le (c : List Char) :
    (boundary_indices c).length ≤ (pySplit c).length := by
  rw [length_pySplit]
  unfold boundary_indices
  have hsplitcond :
      (fun i => decide (c.getD i padChar = spaceChar ∨ i = c.length - 1)) =
        (fun i => decide (c.getD i padChar = spaceChar) ||
          decide (i = c.length - 1)) := by
    funext i
    rw [Bool.decide_or]
  rw [hsplitcond]
  calc ((List.range c.length).filter _).length
      ≤ ((List.range c.length).filter
            (fun i => decide (c.getD i padChar = spaceChar))).length +
          ((List.range c.length).filter
            (fun i => decide (i = c.length - 1))).length :=
        length_filter_or_le _
    _ ≤ c.count spaceChar + 1 := by
        rw [filter_getD_space_length]
        exact Nat.add_le_add_left (filter_eq_last_length c.length) _

lemma cwt_map_snd {c : List Char} {t : List ℚ} {off : ℚ}
    (hlen : c.length = t.length) :
    (calculate_word_times c t off).map Prod.snd = spec_times c t off := by
  rw [cwt_eq_spec c t off hlen]
  unfold spec_word_times
  apply List.map_snd_zip
  calc (spec_times c t off).length = (boundary_indices c).length := by
        unfold spec_times
        rw [List.length_map]
    _ ≤ (pySplit c).length := boundary_indices_length_le c

lemma cwt_getLast_snd {c : List Char} {t : List ℚ} {off : ℚ}
    (hne : c ≠ []) (hlen : c.length = t.length) :
    ((calculate_word_times c t off).getLast?).map Prod.snd =
      some (off + t.getD (pyPrevIdx (c.length - 1) c.length) 0 / 1000) := by
  rw [← List.getLast?_map, cwt_map_snd hlen, spec_times_getLast? hne]

end Pipecat

namespace Pipecat

/-- C7 counterexample: two batches with strictly increasing character start
times (`[0, 100]` both), chained through the first batch's last returned time
as the second offset, do NOT yield strictly increasing word times: both
batches are single-word (`"hi"`, `"yo"`), each boundary is the final index and
receives the PREVIOUS character's time `0`, so the combined sequence is
`[0, 0]`. -/
theorem C7_counterexample :
    ([(0 : ℚ), 100].Pairwise (· < ·)) ∧
    ((((calculate_word_times ['h', 'i'] [0, 100] 0).map Prod.snd) ++
        ((calculate_word_times ['y', 'o'] [0, 100]
            ((((calculate_word_times ['h', 'i'] [0, 100] 0).getLast?).map
                Prod.snd).getD 0)).map Prod.snd)) = [0, 0] ∧
      ¬ ([(0 : ℚ), 0].Pairwise (· < ·))) := by
  refine ⟨by norm_num [List.pairwise_cons], ?_, by norm_num [List.pairwise_cons]⟩
  norm_num +decide [calculate_word_times, wordTimesLoop, pySplit, pyPrevIdx,
    spaceChar, padChar]

/-- C7 (amended): the strict increase holds under the hypotheses the
counterexample forces: each batch is non-empty with equal-length lists,
does not start with a space (no boundary at index 0, whose Python `[-1]`
lookup would break monotonicity, cf. C10), and has strictly increasing,
strictly positive character start times.  Then the word times of the first
batch (offset 0) followed by those of the second batch (offset = the first
batch's last returned time, as maintained by `_receive_task_handler`) are
strictly increasing. -/
theorem C7_amended (c1 c2 : List Char) (t1 t2 : List ℚ)
    (hne1 : c1 ≠ []) (hlen1 : c1.length = t1.length)
    (hh1 : c1.getD 0 padChar ≠ spaceChar)
    (hs1 : t1.Pairwise (· < ·)) (_hp1 : ∀ y ∈ t1, 0 < y)
    (_hne2 : c2 ≠ []) (hlen2 : c2.length = t2.length)
    (hh2 : c2.getD 0 padChar ≠ spaceChar)
    (hs2 : t2.Pairwise (· < ·)) (hp2 : ∀ y ∈ t2, 0 < y) :
    (((calculate_word_times c1 t1 0).map Prod.snd) ++
        ((calculate_word_times c2 t2
            ((((calculate_word_times c1 t1 0).getLast?).map Prod.snd).getD 0)).map
          Prod.snd)).Pairwise (· < ·) := by
  have hlast := @cwt_getLast_snd c1 t1 0 hne1 hlen1
  have hoff2 : ((((calculate_word_times c1 t1 0).getLast?).map Prod.snd).getD 0) =
      0 + t1.getD (pyPrevIdx (c1.length - 1) c1.length) 0 / 1000 := by
    rw [hlast]
    rfl
  rw [cwt_map_snd hlen1, cwt_map_snd hlen2, List.pairwise_append]
  refine ⟨spec_times_sorted hlen1 hh1 hs1, spec_times_sorted hlen2 hh2 hs2, ?_⟩
  intro a ha b hb
  have h1 : a ≤ 0 + t1.getD (pyPrevIdx (c1.length - 1) c1.length) 0 / 1000 :=
    spec_times_le_last hlen1 hh1 hs1 ha
  have h2 := spec_times_gt_off hlen2 hp2 hb
  rw [hoff2] at h2
  linarith

/-- Witness for C7 at two concrete increasing positive batches. -/
theorem C7_amended_witness :
    (((calculate_word_times "hi you".toList [1, 2, 3, 4, 5, 6] 0).map Prod.snd) ++
        ((calculate_word_times "ok".toList [7, 8]
            ((((calculate_word_times "hi you".toList [1, 2, 3, 4, 5, 6] 0).getLast?).map
                Prod.snd).getD 0)).map Prod.snd)).Pairwise (· < ·) :=
  C7_amended "hi you".toList "ok".toList [1, 2, 3, 4, 5, 6] [7, 8]
    (by decide) (by decide) (by decide)
    (by norm_num [List.pairwise_cons])
    (by
      intro y hy
      simp only [List.mem_cons, List.not_mem_nil, or_false] at hy
      rcases hy with rfl | rfl | rfl | rfl | rfl | rfl <;> norm_num)
    (by decide) (by decide) (by decide)
    (by norm_num [List.pairwise_cons])
    (by
      intro y hy
      simp only [List.mem_cons, List.not_mem_nil, or_false] at hy
      rcases hy with rfl | rfl <;> norm_num)

end Pipecat

namespace Pipecat

/-- Recognizer for the utterance-delimiting events (start, stop,
interruption). -/
def isRelEv : Ev → Bool
  | .evStarted => true
  | .evStopped => true
  | .evInterruption => true
  | _ => false

/-- Recognizer for the start event. -/
def isStartedEv : Ev → Bool
  | .evStarted => true
  | _ => false

/-- Whether, according to the emitted event history, an utterance is open:
a start event has been emitted and no stop/interruption event since. -/
def activeOf (evs : List Ev) : Bool :=
  match (evs.filter isRelEv).getLast? with
  | some e => isStartedEv e
  | none => false

lemma activeOf_append (E F : List Ev) :
    activeOf (E ++ F) =
      if (F.filter isRelEv).isEmpty then activeOf E else activeOf F := by
  unfold activeOf
  rw [List.filter_append, List.getLast?_append]
  cases hf : F.filter isRelEv with
  | nil => simp
  | cons x tl =>
    obtain ⟨a, ha⟩ := Option.isSome_iff_exists.mp
      (List.getLast?_isSome.mpr (by simp : x :: tl ≠ []))
    simp [ha]

@[simp] lemma activeOf_append_sent (E : List Ev) (t : String) :
    activeOf (E ++ [Ev.evSent t]) = activeOf E := by
  rw [activeOf_append]; rfl

@[simp] lemma activeOf_append_audio (E : List Ev) (p : Nat) :
    activeOf (E ++ [Ev.evAudio p]) = activeOf E := by
  rw [activeOf_append]; rfl

@[simp] lemma activeOf_append_word (E : List Ev) (w : List (List Char × ℚ)) :
    activeOf (E ++ [Ev.evWord w]) = activeOf E := by
  rw [activeOf_append]; rfl

@[simp] lemma activeOf_append_start_sent (E : List Ev) (t : String) :
    activeOf (E ++ [Ev.evStarted, Ev.evSent t]) = true := by
  rw [activeOf_append]; rfl

@[simp] lemma activeOf_append_start (E : List Ev) :
    activeOf (E ++ [Ev.evStarted]) = true := by
  rw [activeOf_append]; rfl

@[simp] lemma activeOf_append_start_stop_word (E : List Ev)
    (w : List (List Char × ℚ)) :
    activeOf (E ++ [Ev.evStarted, Ev.evStopped, Ev.evWord w]) = false := by
  rw [activeOf_append]; rfl

@[simp] lemma activeOf_append_stop_word (E : List Ev)
    (w : List (List Char × ℚ)) :
    activeOf (E ++ [Ev.evStopped, Ev.evWord w]) = false := by
  rw [activeOf_append]; rfl

@[simp] lemma activeOf_append_intr (E : List Ev) :
    activeOf (E ++ [Ev.evInterruption]) = false := by
  rw [activeOf_append]; rfl

@[simp] lemma connectStep_websocket (s : SvcState) (ok : Bool) :
    (connectStep s ok).websocket = ok := by
  unfold connectStep
  cases ok <;> rfl

@[simp] lemma connectStep_receiveTask (s : SvcState) (ok : Bool) :
    (connectStep s ok).receiveTask = (if ok then true else s.receiveTask) := by
  unfold connectStep
  cases ok <;> rfl

@[simp] lemma connectStep_started (s : SvcState) (ok : Bool) :
    (connectStep s ok).started = s.started := by
  unfold connectStep
  split <;> rfl

@[simp] lemma connectStep_cumulative (s : SvcState) (ok : Bool) :
    (connectStep s ok).cumulative = s.cumulative := by
  unfold connectStep
  split <;> rfl

lemma step_activeOf (s : SvcState) (a : Action) (E : List Ev)
    (hns : ∀ ok : Bool, a ≠ Action.stop ok)
    (hinv : s.started = activeOf E) :
    (step s a).1.started = activeOf (E ++ (step s a).2) := by
  obtain ⟨ws, task, st, cum⟩ := s
  cases a with
  | stop ok => exact absurd rfl (hns ok)
  | connect ok =>
    simp only [step, List.append_nil, connectStep_started]
    exact hinv
  | interrupt => simp [step, push_frame]
  | stoppedFrame => simp [step, push_frame]
  | deliver m =>
    cases ht : task with
    | false =>
      simp only [step, deliverStep, ht]
      simpa using hinv
    | true =>
      cases m with
      | audio p =>
        simp only [step, deliverStep, ht, if_true, push_frame, frameEv]
        simpa using hinv
      | alignment c t =>
        simp only [step, deliverStep, ht, if_true]
        cases hlast : (calculate_word_times c t cum).getLast? with
        | some last => simpa [hlast] using hinv
        | none => simpa [hlast] using hinv
  | runTTS text cOk sOk rOk =>
    cases hws : ws <;> cases hst : st <;> cases hc : cOk <;> cases hsok : sOk <;>
      simp [step, runTTSStep, push_frame, disconnectStep, frameEv, ← hinv] <;>
      exact hst

lemma exec_activeOf (acts : List Action) :
    ∀ (s : SvcState) (E : List Ev),
      (∀ ok : Bool, Action.stop ok ∉ acts) →
      s.started = activeOf E →
      (exec s acts).1.started = activeOf (E ++ (exec s acts).2) := by
  induction acts with
  | nil =>
    intro s E _ hinv
    simpa [exec] using hinv
  | cons a tl ih =>
    intro s E hns hinv
    have hne : ∀ ok : Bool, a ≠ Action.stop ok := by
      intro ok h
      exact hns ok (h ▸ List.mem_cons_self a tl)
    have htl : ∀ ok : Bool, Action.stop ok ∉ tl :=
      fun ok h => hns ok (List.mem_cons_of_mem a h)
    show (exec (step s a).1 tl).1.started =
      activeOf (E ++ ((step s a).2 ++ (exec (step s a).1 tl).2))
    rw [← List.append_assoc]
    exact ih (step s a).1 (E ++ (step s a).2) htl (step_activeOf s a E hne hinv)

end Pipecat

namespace Pipecat

lemma deliverStep_started (s : SvcState) (m : Msg) :
    (deliverStep s m).1.started = s.started := by
  cases htask : s.receiveTask with
  | false => simp [deliverStep, htask]
  | true =>
    cases m with
    | audio p => simp [deliverStep, htask, push_frame]
    | alignment c t =>
      simp only [deliverStep, htask, if_true]
      cases hl : (calculate_word_times c t s.cumulative).getLast? <;> simp [hl]

/-- C5 counterexample: after the trace connect → run_tts → stop (a normal,
exception-free teardown) the `_started` flag is false, yet the emitted event
history contains a start event with no stop or interruption event after it
(`_disconnect` clears the flag without emitting any stop event), so
"`active` is true iff a start event has been emitted and no stop/interruption
event has since been emitted" fails in the right-to-left direction on this
reachable state. -/
theorem C5_counterexample :
    (exec initState
        [Action.connect true, Action.runTTS "x" true true true,
          Action.stop true]).1.started = false ∧
    activeOf (exec initState
        [Action.connect true, Action.runTTS "x" true true true,
          Action.stop true]).2 = true := by
  decide

/-- C5 (amended): (1) on every trace that contains no `stop()`/`cancel()`
teardown, `_started` is true iff a start event has been emitted and no
stop/interruption event since (teardown clears the flag without emitting a
stop event, as the counterexample shows); (2) whenever a step takes
`_started` from false to true, the cumulative offset is reset to 0; (3) the
offset changes only by that start reset or by alignment-batch advancement;
(4) calling `run_tts` twice with no intervening stop emits exactly one start
event; (5) after an interruption the next `run_tts` emits a fresh start event
and resets the cumulative offset to 0. -/
theorem C5_amended :
    (∀ acts : List Action, (∀ ok : Bool, Action.stop ok ∉ acts) →
      (exec initState acts).1.started = activeOf (exec initState acts).2) ∧
    (∀ (s : SvcState) (a : Action), s.started = false →
      (step s a).1.started = true → (step s a).1.cumulative = 0) ∧
    (∀ (s : SvcState) (a : Action), (step s a).1.cumulative ≠ s.cumulative →
      (Ev.evStarted ∈ (step s a).2 ∧ (step s a).1.cumulative = 0) ∨
        ∃ c t, a = Action.deliver (Msg.alignment c t)) ∧
    (∀ (s : SvcState) (t1 t2 : String), s.websocket = true → s.started = false →
      ((step s (Action.runTTS t1 true true true)).2 ++
        (step (step s (Action.runTTS t1 true true true)).1
          (Action.runTTS t2 true true true)).2).count Ev.evStarted = 1) ∧
    (∀ (s : SvcState) (t : String),
      (step (step s Action.interrupt).1
          (Action.runTTS t true true true)).1.started = true ∧
      (step (step s Action.interrupt).1
          (Action.runTTS t true true true)).1.cumulative = 0 ∧
      Ev.evStarted ∈ (step (step s Action.interrupt).1
          (Action.runTTS t true true true)).2) := by
  refine ⟨?_, ?_, ?_, ?_, ?_⟩
  · intro acts h
    simpa using exec_activeOf acts initState [] h rfl
  · intro s a h0 h1
    cases a with
    | connect ok =>
      simp only [step, connectStep_started] at h1
      rw [h0] at h1
      exact Bool.noConfusion h1
    | deliver m =>
      simp only [step] at h1
      rw [deliverStep_started (s := s) (m := m)] at h1
      rw [h0] at h1
      exact Bool.noConfusion h1
    | interrupt =>
      simp [step, push_frame] at h1
    | stoppedFrame =>
      simp [step, push_frame] at h1
    | stop ok =>
      cases ok <;> simp [step, disconnectStep] at h1
      simp_all
    | runTTS text cOk sOk rOk =>
      obtain ⟨ws, task, st, cum⟩ := s
      simp only at h0
      subst h0
      cases ws <;> cases cOk <;> cases sOk <;>
        simp_all [step, runTTSStep, push_frame, disconnectStep]
  · intro s a hch
    cases a with
    | connect ok => exact absurd (by simp [step]) hch
    | interrupt => exact absurd (by simp [step, push_frame]) hch
    | stoppedFrame => exact absurd (by simp [step, push_frame]) hch
    | stop ok =>
      exact absurd (by cases ok <;> simp [step, disconnectStep]) hch
    | deliver m =>
      cases m with
      | audio p =>
        refine absurd ?_ hch
        cases htask : s.receiveTask <;> simp [step, deliverStep, htask, push_frame]
      | alignment c t => exact Or.inr ⟨c, t, rfl⟩
    | runTTS text cOk sOk rOk =>
      obtain ⟨ws, task, st, cum⟩ := s
      cases st <;> cases ws <;> cases cOk <;> cases sOk <;>
        simp_all [step, runTTSStep, push_frame, disconnectStep, frameEv]
  · intro s t1 t2 hws h0
    obtain ⟨ws, task, st, cum⟩ := s
    simp only at hws h0
    subst hws h0
    simp [step, runTTSStep, push_frame, frameEv, List.count_append,
      List.count_cons]
  · intro s t
    obtain ⟨ws, task, st, cum⟩ := s
    cases ws <;>
      simp [step, runTTSStep, push_frame, frameEv]

/-- Witness for C5: the event-history invariant evaluated on a concrete
teardown-free trace. -/
theorem C5_amended_witness :
    (exec initState
        [Action.connect true, Action.runTTS "x" true true true,
          Action.interrupt]).1.started =
      activeOf (exec initState
        [Action.connect true, Action.runTTS "x" true true true,
          Action.interrupt]).2 :=
  C5_amended.1
    [Action.connect true, Action.runTTS "x" true true true, Action.interrupt]
    (by intro ok; cases ok <;> decide)

end Pipecat
